import Mathlib

/-! iexcloud: request construction and duration tokens

A shallow embedding of the Go package `iexcloud` (`types.go`, `client.go`).

* Go strings are Lean strings; the functions that scan a string byte by byte
  (`path.Clean`) work on the character list, every byte they test for
  (`/` and `.`) being ASCII.
* `int64`, `int` and `time.Duration` values are integers; the int64 range is
  the predicate `isInt64`.  No operation of the package can overflow inside
  that range.
* `fmt.Sprintf` with the verbs `%d` and `%s` is `fmtD` and concatenation.
* A `float64` field is carried as its IEEE-754 bit pattern: the package never
  computes with one.
* Slices are lists (the nil slice and the empty slice are both `[]`), a
  pointer result is an `Option` (`nil` is `none`).
-/

namespace Iexcloud

/-- A Go `string`. -/
abbrev GoString := String

/-- A Go `float64`, as its bit pattern; the zero value is `0`. -/
abbrev Float64 := Nat

/-! ## Integers and formatting -/

/-- The range of a Go `int64` (and of `time.Duration`). -/
def isInt64 (n : Int) : Prop := -(2 ^ 63 : Int) ≤ n ∧ n ≤ 2 ^ 63 - 1

instance (n : Int) : Decidable (isInt64 n) := by
  unfold isInt64; exact inferInstance

/-- The verb `%d` of `fmt.Sprintf`: an optional minus sign and the decimal
digits of the magnitude. -/
def fmtD (n : Int) : GoString :=
  if n < 0 then "-" ++ Nat.repr n.natAbs else Nat.repr n.natAbs

/-! ## Package `path` of the Go standard library -/

/-- The backtracking of `path.Clean` at a `..` element, on the reversed output
buffer: `out.w--`, then `out.w--` again while `out.w > dotdot` and
`out.index(out.w) != '/'`.  The head of the argument is the byte at index
`out.w`, its tail the `out.w` bytes that stay. -/
def backtrack (dotdot : Nat) : List Char → List Char
  | [] => []
  | c :: rest =>
    if dotdot < rest.length ∧ c ≠ '/' then backtrack dotdot rest else rest

/-- The main loop `for r < n` of `path.Clean`.  `path` is the input from index
`r` on, `out` the output buffer reversed (`out.w` is its length); every
iteration advances `r`, so a fuel of `n - r` is never exhausted
(`cleanLoop_fuel`). -/
def cleanLoop (rooted : Bool) : Nat → List Char → List Char → Nat → List Char
  | 0, _, out, _ => out
  | _ + 1, [], out, _ => out
  | fuel + 1, c :: rest, out, dotdot =>
    if c = '/' then
      -- empty path element
      cleanLoop rooted fuel rest out dotdot
    else if c = '.' ∧ (rest = [] ∨ rest.head? = some '/') then
      -- . element
      cleanLoop rooted fuel rest out dotdot
    else if c = '.' ∧ rest.head? = some '.' ∧
        (rest.tail = [] ∨ rest.tail.head? = some '/') then
      -- .. element: remove to last /
      if dotdot < out.length then
        cleanLoop rooted fuel rest.tail (backtrack dotdot out) dotdot
      else if rooted = false then
        let out1 := if 0 < out.length then '/' :: out else out
        let out2 := '.' :: '.' :: out1
        cleanLoop rooted fuel rest.tail out2 out2.length
      else
        cleanLoop rooted fuel rest.tail out dotdot
    else
      -- real path element: add slash if needed, copy element
      let out1 :=
        if (rooted = true ∧ out.length ≠ 1) ∨ (rooted = false ∧ out.length ≠ 0)
        then '/' :: out else out
      cleanLoop rooted fuel ((c :: rest).dropWhile (fun b => b ≠ '/'))
        (((c :: rest).takeWhile (fun b => b ≠ '/')).reverse ++ out1) dotdot

/-- A proper path element: not empty, without `/`, and neither `.` nor `..`. -/
def isElem (s : List Char) : Prop :=
  s ≠ [] ∧ '/' ∉ s ∧ s ≠ ['.'] ∧ s ≠ ['.', '.']

instance (s : List Char) : Decidable (isElem s) := by
  unfold isElem; exact inferInstance

/-- A proper relative path: proper elements separated by single slashes. -/
inductive isPath : List Char → Prop where
  | single (s : List Char) : isElem s → isPath s
  | cons (s p : List Char) : isElem s → isPath p → isPath (s ++ '/' :: p)

/-- The loop of `path.Clean` with the fuel it is started with. -/
def cleanRun (rooted : Bool) (path out : List Char) (dotdot : Nat) : List Char :=
  cleanLoop rooted path.length path out dotdot

/-- The function `path.Clean`. -/
def Clean (path : GoString) : GoString :=
  if path = "" then "."
  else
    let rooted : Bool := path.data.head? = some '/'
    let out :=
      if rooted then cleanLoop true path.data.length path.data.tail ['/'] 1
      else cleanLoop false path.data.length path.data [] 0
    if out.length = 0 then "." else String.mk out.reverse

/-- The function `path.Join`: the non-empty elements joined by `/`, cleaned;
the empty string when every element is empty. -/
def Join (elem : List GoString) : GoString :=
  if (elem.map String.length).sum = 0 then ""
  else
    Clean (elem.foldl
      (fun buf e =>
        if 0 < buf.length ∨ e ≠ "" then
          (if 0 < buf.length then buf ++ "/" else buf) ++ e
        else buf) "")

/-! ## types.go -/

/-- One hour of `time.Duration`, in nanoseconds. -/
def hour : Int := 3600 * 1000000000

/-- Constant `day = 24 * time.Hour`. -/
def day : Int := 24 * hour

/-- Constant `month = 30 * day`. -/
def month : Int := 30 * day

/-- Constant `year = 365 * day`. -/
def year : Int := 365 * day

/-- The struct `QuoteResult`; an omitted field has its zero value. -/
structure QuoteResult where
  Symbol : GoString := ""
  CompanyName : GoString := ""
  PrimaryExchange : GoString := ""
  CalculationPrice : GoString := ""
  Open : Float64 := 0
  OpenTime : Int := 0
  OpenSource : GoString := ""
  Close : Float64 := 0
  CloseTime : Int := 0
  CloseSource : GoString := ""
  High : Float64 := 0
  HighTime : Int := 0
  HighSource : GoString := ""
  Low : Float64 := 0
  LowTime : Int := 0
  LowSource : GoString := ""
  LatestPrice : Float64 := 0
  LatestSource : GoString := ""
  LatestTime : GoString := ""
  LatestUpdate : Int := 0
  LatestVolume : Int := 0
  IexRealtimePrice : Float64 := 0
  IexRealtimeSize : Int := 0
  IexLastUpdated : Int := 0
  DelayedPrice : Float64 := 0
  DelayedPriceTime : Int := 0
  OddLotDelayedPrice : Float64 := 0
  OddLotDelayedPriceTime : Int := 0
  ExtendedPrice : Float64 := 0
  ExtendedChange : Float64 := 0
  ExtendedChangePercent : Float64 := 0
  ExtendedPriceTime : Int := 0
  PreviousClose : Float64 := 0
  PreviousVolume : Int := 0
  Change : Float64 := 0
  ChangePercent : Float64 := 0
  Volume : Int := 0
  IexMarketPercent : Float64 := 0
  IexVolume : Int := 0
  AvgTotalVolume : Int := 0
  IexBidPrice : Float64 := 0
  IexBidSize : Int := 0
  IexAskPrice : Float64 := 0
  IexAskSize : Int := 0
  IexOpen : Float64 := 0
  IexOpenTime : Int := 0
  IexClose : Float64 := 0
  IexCloseTime : Int := 0
  MarketCap : Int := 0
  PeRatio : Float64 := 0
  Week52High : Float64 := 0
  Week52Low : Float64 := 0
  YtdChange : Float64 := 0
  LastTradeTime : Int := 0
  Currency : GoString := ""
  IsUSMarketOpen : Bool := false
  deriving DecidableEq

/-- The struct `IntradayItem`; an omitted field has its zero value. -/
structure IntradayItem where
  Average : Float64 := 0
  ChangeOverTime : Float64 := 0
  Close : Float64 := 0
  Date : GoString := ""
  High : Float64 := 0
  Label : GoString := ""
  Low : Float64 := 0
  Minute : GoString := ""
  Notional : Float64 := 0
  NumberOfTrades : Int := 0
  Open : Float64 := 0
  Volume : Float64 := 0
  deriving DecidableEq

/-- The struct `SearchResultItem` (its field `Type` is `Type_` here); an omitted
field has its zero value. -/
structure SearchResultItem where
  Cik : GoString := ""
  Currency : GoString := ""
  Exchange : GoString := ""
  ExchangeName : GoString := ""
  ExchangeSuffix : GoString := ""
  Figi : GoString := ""
  IexID : GoString := ""
  Lei : GoString := ""
  Name : GoString := ""
  Region : GoString := ""
  Sector : GoString := ""
  SecurityName : GoString := ""
  SecurityType : GoString := ""
  Symbol : GoString := ""
  Type_ : GoString := ""
  deriving DecidableEq

/-- The struct `NewsResultItem`; an omitted field has its zero value. -/
structure NewsResultItem where
  Datetime : Int := 0
  Headline : GoString := ""
  Image : GoString := ""
  ImageURL : GoString := ""
  Lang : GoString := ""
  Provider : GoString := ""
  QmURL : GoString := ""
  Related : GoString := ""
  Source : GoString := ""
  Summary : GoString := ""
  URL : GoString := ""
  deriving DecidableEq

/-- The struct `DividendResultItem`; an omitted field has its zero value. -/
structure DividendResultItem where
  Amount : Float64 := 0
  Currency : GoString := ""
  DeclaredDate : GoString := ""
  Description : GoString := ""
  ExDate : GoString := ""
  Flag : GoString := ""
  Frequency : GoString := ""
  PaymentDate : GoString := ""
  RecordDate : GoString := ""
  SecurityType : GoString := ""
  Notes : GoString := ""
  Figi : GoString := ""
  LastUpdated : GoString := ""
  CountryCode : GoString := ""
  ParValue : Float64 := 0
  ParValueCurrency : GoString := ""
  NetAmount : Float64 := 0
  GrossAmount : Float64 := 0
  Marker : GoString := ""
  TaxRate : Float64 := 0
  FromFactor : Float64 := 0
  ToFactor : Float64 := 0
  ADRFee : Float64 := 0
  Coupon : Float64 := 0
  DeclaredCurrencyCD : GoString := ""
  DeclaredGrossAmount : Float64 := 0
  IsNetInvestmentIncome : Bool := false
  IsDAP : Bool := false
  IsApproximate : Bool := false
  FxDate : GoString := ""
  SecondPaymentDate : GoString := ""
  SecondExDate : GoString := ""
  FiscalYearEndDate : GoString := ""
  PeriodEndDate : GoString := ""
  OptionalElectionDate : GoString := ""
  ToDate : GoString := ""
  RegistrationDeadline : GoString := ""
  InstallmentPayDate : GoString := ""
  Created : GoString := ""
  deriving DecidableEq

/-- The struct `IntradayResult`. -/
structure IntradayResult where
  Symbol : GoString := ""
  Data : List IntradayItem := []
  deriving DecidableEq

/-- The struct `SearchResults`. -/
structure SearchResults where
  Search : GoString := ""
  Results : List SearchResultItem := []
  deriving DecidableEq

/-- The struct `NewsResults`. -/
structure NewsResults where
  Symbol : GoString := ""
  News : List NewsResultItem := []
  deriving DecidableEq

/-- The struct `DividendResults`. -/
structure DividendResults where
  Symbol : GoString := ""
  Dividends : List DividendResultItem := []
  deriving DecidableEq

/-- The struct `Duration`. -/
structure Duration where
  Max : Bool := false
  Years : Int := 0
  Months : Int := 0
  Days : Int := 0
  deriving DecidableEq

namespace Duration

/-- The method `Duration.String`. -/
def String (d : Duration) : GoString :=
  if d.Max then "max"
  else if d.Years ≠ 0 then fmtD d.Years ++ "y"
  else if d.Months ≠ 0 then fmtD d.Months ++ "m"
  else if d.Days ≠ 0 then fmtD d.Days ++ "d"
  else "1d"

end Duration

/-- The function `NewDuration`; Go's `/` on integers truncates. -/
def NewDuration (dur : Int) : Duration :=
  if dur < day then { Days := 1 }
  else if dur < month then { Days := dur.tdiv day }
  else if dur < year then { Months := dur.tdiv month }
  else { Years := dur.tdiv year }

/-- The type `queryOption`. -/
abbrev queryOption := GoString

/-- The function `Range`. -/
def Range (dur : Duration) : queryOption := "range=" ++ dur.String

/-- The function `Calendar`. -/
def Calendar (value : Bool) : queryOption :=
  if value then "calendar=true" else "calendar=false"

/-- The function `Limit`; `count` is a `uint32`. -/
def Limit (count : Nat) : queryOption := "limit=" ++ fmtD count

/-- The second loop of `Subattribute`, from index `i` on: `rest` is
`pairs[i:]`, `len` is `len(pairs)`. -/
def subattributeLoop (len : Nat) : Nat → List GoString → GoString → GoString
  | _, [], kvList => kvList
  | i, p :: rest, kvList =>
    if i = len - 1 then kvList ++ p
    else subattributeLoop len (i + 1) rest (kvList ++ (p ++ ","))

/-- The function `Subattribute`.  `keyValues` lists the entries of the map (a
list of pairs, no key twice) in the order in which `range` yields them, an
order Go leaves unspecified: any permutation of the entries. -/
def Subattribute (keyValues : List (GoString × GoString)) : queryOption :=
  let pairs := keyValues.map (fun kv => kv.1 ++ "|" ++ kv.2)
  "subattribute=" ++ subattributeLoop pairs.length 0 pairs ""

/-! ## client.go -/

/-- The type `environment`. -/
abbrev environment := GoString

/-- Constant `Prod`. -/
def Prod : environment := "cloud"

/-- Constant `Sandbox`. -/
def Sandbox : environment := "sandbox"

/-- Constant `timeSeries`. -/
def timeSeries : GoString := "time-series/"

/-- The struct `IexError`. -/
structure IexError where
  Code : Int
  Message : GoString
  deriving DecidableEq

/-- The `error` values `callAndUnmarshal` can return, by where they come from.
Only `iex` is an `*IexError`: `net/http`, `ioutil` and `encoding/json` have
error types of their own. -/
inductive Error where
  | request (e : GoString)
  | transport (e : GoString)
  | read (e : GoString)
  | iex (e : IexError)
  | decode (e : GoString)
  deriving DecidableEq

/-- An `*http.Response` as the package uses it: the status code and what
`ioutil.ReadAll(resp.Body)` gives. -/
structure Response where
  StatusCode : Int
  Body : Except GoString GoString

/-- The `*http.Client` with the context of the call: `newRequest url` is the
error of `http.NewRequestWithContext(ctx, "GET", url, nil)`, if any, and
`Do url` what `httpClient.Do` returns for the request to `url`. -/
structure HTTPClient where
  newRequest : GoString → Option GoString
  Do : GoString → Except GoString Response

/-- The function `json.Unmarshal` at one target type: from the body and the
value the target holds, the value it holds afterwards and the error. -/
abbrev Unmarshal (α : Type) := GoString → α → α × Option GoString

/-- The struct `Client`. -/
structure Client where
  tokenParam : GoString
  baseURL : GoString
  httpClient : HTTPClient

/-- The function `New`; `transport` stands for `http.DefaultClient`. -/
def New (apiKey : GoString) (env : environment) (transport : HTTPClient) : Client :=
  { tokenParam := "?token=" ++ apiKey
    baseURL := "https://" ++ env ++ ".iexapis.com/stable/"
    httpClient := transport }

namespace Client

/-- The method `callAndUnmarshal`: the value of the target `wrapped` afterwards
and the error returned. -/
def callAndUnmarshal {α : Type} (c : Client) (unmarshal : Unmarshal α)
    (url : GoString) (wrapped : α) : α × Option Error :=
  match c.httpClient.newRequest url with
  | some err => (wrapped, some (Error.request err))
  | none =>
    match c.httpClient.Do url with
    | .error err => (wrapped, some (Error.transport err))
    | .ok resp =>
      match resp.Body with
      | .error err => (wrapped, some (Error.read err))
      | .ok body =>
        if resp.StatusCode ≥ 400 then
          (wrapped, some (Error.iex { Code := resp.StatusCode, Message := body }))
        else
          match unmarshal body wrapped with
          | (w, some err) => (w, some (Error.decode err))
          | (w, none) => (w, none)

/-- The local `callURL` of `Quote`. -/
def quoteURL (c : Client) (symbol : GoString) : GoString :=
  c.baseURL ++ ("stock/" ++ symbol ++ "/quote") ++ c.tokenParam

/-- The method `Quote`. -/
def Quote (c : Client) (u : Unmarshal QuoteResult) (symbol : GoString) :
    Option QuoteResult × Option Error :=
  let r := c.callAndUnmarshal u (c.quoteURL symbol) {}
  (some r.1, r.2)

/-- The local `callURL` of `IntradayPrices`. -/
def intradayPricesURL (c : Client) (symbol : GoString) : GoString :=
  c.baseURL ++ ("stock/" ++ symbol ++ "/intraday-prices") ++ c.tokenParam

/-- The method `IntradayPrices`. -/
def IntradayPrices (c : Client) (u : Unmarshal (List IntradayItem))
    (symbol : GoString) : Option IntradayResult × Option Error :=
  let r := c.callAndUnmarshal u (c.intradayPricesURL symbol) []
  (some { Symbol := symbol, Data := r.1 }, r.2)

/-- The local `callURL` of `HistoricalPrices`. -/
def historicalPricesURL (c : Client) (symbol : GoString) (duration : Duration) :
    GoString :=
  c.baseURL ++ ("stock/" ++ symbol ++ "/chart") ++ duration.String ++ c.tokenParam

/-- The method `HistoricalPrices`. -/
def HistoricalPrices (c : Client) (u : Unmarshal (List IntradayItem))
    (symbol : GoString) (duration : Duration) :
    Option IntradayResult × Option Error :=
  let r := c.callAndUnmarshal u (c.historicalPricesURL symbol duration) []
  (some { Symbol := symbol, Data := r.1 }, r.2)

/-- The local `callURL` of `Search`. -/
def searchURL (c : Client) (query : GoString) : GoString :=
  c.baseURL ++ "search/" ++ query ++ c.tokenParam

/-- The method `Search`. -/
def Search (c : Client) (u : Unmarshal (List SearchResultItem))
    (query : GoString) : Option SearchResults × Option Error :=
  let r := c.callAndUnmarshal u (c.searchURL query) []
  (some { Search := query, Results := r.1 }, r.2)

/-- The local `callURL` of `Dividends`. -/
def dividendsURL (c : Client) (symbol : GoString) (duration : Duration) :
    GoString :=
  c.baseURL ++ Join ["stock/" ++ symbol ++ "/dividends", duration.String]
    ++ c.tokenParam

/-- The method `Dividends`. -/
def Dividends (c : Client) (u : Unmarshal (List DividendResultItem))
    (symbol : GoString) (duration : Duration) :
    Option DividendResults × Option Error :=
  let r := c.callAndUnmarshal u (c.dividendsURL symbol duration) []
  (some { Symbol := symbol, Dividends := r.1 }, r.2)

/-- The local `callURL` of `TimeSeries`. -/
def timeSeriesURL (c : Client) (id key subkey : GoString)
    (queryOpts : List queryOption) : GoString :=
  c.baseURL ++ Join [timeSeries, id, key, subkey]
    ++ queryOpts.foldl (fun opts o => opts ++ ("&" ++ o)) c.tokenParam

/-- The method `TimeSeries`. -/
def TimeSeries {α : Type} (c : Client) (u : Unmarshal α) (id key subkey : GoString)
    (wrapped : α) (queryOpts : List queryOption) : α × Option Error :=
  c.callAndUnmarshal u (c.timeSeriesURL id key subkey queryOpts) wrapped

/-- The method `News`. -/
def News (c : Client) (u : Unmarshal (List NewsResultItem)) (symbol : GoString)
    (queryOpts : List queryOption) : Option NewsResults × Option Error :=
  match c.TimeSeries u "news" symbol "" [] queryOpts with
  | (_, some err) => (none, some err)
  | (res, none) => (some { Symbol := symbol, News := res }, none)

/-- The method `AdvancedDividends`. -/
def AdvancedDividends (c : Client) (u : Unmarshal (List DividendResultItem))
    (symbol : GoString) (queryOpts : List queryOption) :
    Option DividendResults × Option Error :=
  match c.TimeSeries u "advanced_dividends" symbol "" [] queryOpts with
  | (_, some err) => (none, some err)
  | (res, none) => (some { Symbol := symbol, Dividends := res }, none)

end Client

/-- A transport that answers every request with the given status and body. -/
def mockTransport (status : Int) (body : GoString) : HTTPClient :=
  { newRequest := fun _ => none
    Do := fun _ => .ok { StatusCode := status, Body := .ok body } }

/-- The transport call for `url` succeeded: the request was built,
`httpClient.Do` returned `resp` and its body was read in full as `body`. -/
def Client.answers (c : Client) (url : GoString) (resp : Response)
    (body : GoString) : Prop :=
  c.httpClient.newRequest url = none ∧ c.httpClient.Do url = .ok resp ∧
    resp.Body = .ok body

/-- A decoder for lists that accepts the empty JSON array only. -/
def emptyArrayOnly (α : Type) : Unmarshal (List α) :=
  fun body w => if body = "[]" then ([], none) else (w, some "invalid character")

/-! ## Durations -/

theorem day_eq : day = 86400000000000 := by decide

theorem month_eq : month = 30 * day := rfl

theorem year_eq : year = 365 * day := rfl

/-- C1: `String` follows the precedence Max, Years, Months, Days, default:
`"max"` when `Max` is set whatever the other fields; else the decimal `Years`
and `y` when `Years` is not zero, whatever `Months` and `Days`; else the
decimal `Months` and `m` when `Months` is not zero, whatever `Days`; else the
decimal `Days` and `d` when `Days` is not zero; else `"1d"`. -/
theorem Duration.String_precedence (y m n : Int) :
    Duration.String { Max := true, Years := y, Months := m, Days := n } = "max" ∧
    (y ≠ 0 → Duration.String { Max := false, Years := y, Months := m, Days := n }
      = fmtD y ++ "y") ∧
    (m ≠ 0 → Duration.String { Max := false, Years := 0, Months := m, Days := n }
      = fmtD m ++ "m") ∧
    (n ≠ 0 → Duration.String { Max := false, Years := 0, Months := 0, Days := n }
      = fmtD n ++ "d") ∧
    Duration.String { Max := false, Years := 0, Months := 0, Days := 0 } = "1d" := by
  refine ⟨by simp [Duration.String], ?_, ?_, ?_, by simp [Duration.String]⟩
  · intro hy
    simp [Duration.String, hy]
  · intro hm
    simp [Duration.String, hm]
  · intro hn
    simp [Duration.String, hn]

theorem Duration.String_precedence_witness :
    Duration.String { Max := false, Years := 2, Months := 7, Days := 9 } = "2y" ∧
    Duration.String { Max := false, Years := 0, Months := -7, Days := 9 } = "-7m" ∧
    Duration.String { Max := false, Years := 0, Months := 0, Days := 9 } = "9d" :=
  ⟨(Duration.String_precedence 2 7 9).2.1 (by decide),
   (Duration.String_precedence 0 (-7) 9).2.2.1 (by decide),
   (Duration.String_precedence 0 0 9).2.2.2.1 (by decide)⟩

/-- C2: `NewDuration d` is one day below a day, the truncated count of days
from one day up to 30 days, of 30-day months from 30 up to 365 days, of 365-day
years from there on, every other field zero. -/
theorem NewDuration_cases (d : Int) :
    (d < day → NewDuration d = { Max := false, Years := 0, Months := 0, Days := 1 }) ∧
    (day ≤ d → d < 30 * day → NewDuration d =
      { Max := false, Years := 0, Months := 0, Days := d.tdiv day }) ∧
    (30 * day ≤ d → d < 365 * day → NewDuration d =
      { Max := false, Years := 0, Months := d.tdiv (30 * day), Days := 0 }) ∧
    (365 * day ≤ d → NewDuration d =
      { Max := false, Years := d.tdiv (365 * day), Months := 0, Days := 0 }) := by
  have hd : day = 86400000000000 := day_eq
  refine ⟨?_, ?_, ?_, ?_⟩
  · intro h
    simp [NewDuration, h]
  · intro h1 h2
    have h3 : ¬ d < day := by omega
    have h4 : d < month := by rw [month_eq]; exact h2
    simp [NewDuration, h3, h4]
  · intro h1 h2
    have h3 : ¬ d < day := by omega
    have h4 : ¬ d < month := by rw [month_eq]; omega
    have h5 : d < year := by rw [year_eq]; exact h2
    rw [NewDuration, if_neg h3, if_neg h4, if_pos h5, month_eq]
  · intro h1
    have h3 : ¬ d < day := by omega
    have h4 : ¬ d < month := by rw [month_eq]; omega
    have h5 : ¬ d < year := by rw [year_eq]; omega
    rw [NewDuration, if_neg h3, if_neg h4, if_neg h5, year_eq]

theorem NewDuration_cases_witness :
    NewDuration (-1) = { Max := false, Years := 0, Months := 0, Days := 1 } ∧
    NewDuration (36 * hour) = { Max := false, Years := 0, Months := 0, Days := 1 } ∧
    NewDuration (45 * day) = { Max := false, Years := 0, Months := 1, Days := 0 } ∧
    NewDuration (800 * day) = { Max := false, Years := 2, Months := 0, Days := 0 } :=
  ⟨(NewDuration_cases (-1)).1 (by decide),
   (NewDuration_cases (36 * hour)).2.1 (by decide) (by decide),
   (NewDuration_cases (45 * day)).2.2.1 (by decide) (by decide),
   (NewDuration_cases (800 * day)).2.2.2 (by decide)⟩

/-- A string that ends in one of the unit letters is not `"max"`. -/
theorem append_unit_ne_max (s : GoString) (u : Char) (hu : u ≠ 'x') :
    s ++ String.singleton u ≠ "max" := by
  intro h
  have h2 := congrArg (fun t : String => t.data.getLast?) h
  simp [String.singleton] at h2
  exact hu h2

/-- C10: for every int64 `d`, `NewDuration d` has `Max` unset and exactly one of
`Days` (1 to 29), `Months` (1 to 12), `Years` (1 to 292) not zero, the other
two being zero; its `String` is that count followed by `d`, `m` or `y`, is not
`"max"`, and the default branch (all of `Max`, `Years`, `Months`, `Days` zero)
is not reached. -/
theorem NewDuration_shape (d : Int) (h : isInt64 d) :
    (NewDuration d).Max = false ∧
    (((NewDuration d).Years = 0 ∧ (NewDuration d).Months = 0 ∧
        1 ≤ (NewDuration d).Days ∧ (NewDuration d).Days ≤ 29 ∧
        (NewDuration d).String = fmtD (NewDuration d).Days ++ "d") ∨
     ((NewDuration d).Years = 0 ∧ (NewDuration d).Days = 0 ∧
        1 ≤ (NewDuration d).Months ∧ (NewDuration d).Months ≤ 12 ∧
        (NewDuration d).String = fmtD (NewDuration d).Months ++ "m") ∨
     ((NewDuration d).Months = 0 ∧ (NewDuration d).Days = 0 ∧
        1 ≤ (NewDuration d).Years ∧ (NewDuration d).Years ≤ 292 ∧
        (NewDuration d).String = fmtD (NewDuration d).Years ++ "y")) ∧
    (NewDuration d).String ≠ "max" ∧
    ¬ ((NewDuration d).Max = false ∧ (NewDuration d).Years = 0 ∧
        (NewDuration d).Months = 0 ∧ (NewDuration d).Days = 0) := by
  have hd : day = 86400000000000 := day_eq
  have hm : month = 2592000000000000 := by decide
  have hy : year = 31536000000000000 := by decide
  have hmax : d ≤ 9223372036854775807 := by
    have := h.2
    norm_num at this
    exact this
  have key : (NewDuration d).Max = false ∧
      (((NewDuration d).Years = 0 ∧ (NewDuration d).Months = 0 ∧
          1 ≤ (NewDuration d).Days ∧ (NewDuration d).Days ≤ 29) ∨
       ((NewDuration d).Years = 0 ∧ (NewDuration d).Days = 0 ∧
          1 ≤ (NewDuration d).Months ∧ (NewDuration d).Months ≤ 12) ∨
       ((NewDuration d).Months = 0 ∧ (NewDuration d).Days = 0 ∧
          1 ≤ (NewDuration d).Years ∧ (NewDuration d).Years ≤ 292)) := by
    by_cases h1 : d < day
    · simp [NewDuration, h1]
    · by_cases h2 : d < month
      · have e : d.tdiv day = d / 86400000000000 := by
          rw [Int.tdiv_eq_ediv (by omega) (by omega), hd]
        have e0 : NewDuration d =
            { Max := false, Years := 0, Months := 0, Days := d / 86400000000000 } := by
          rw [NewDuration, if_neg h1, if_pos h2, e]
        rw [e0]
        refine ⟨rfl, Or.inl ⟨rfl, rfl, ?_, ?_⟩⟩ <;> simp only <;> omega
      · by_cases h3 : d < year
        · have e : d.tdiv month = d / 2592000000000000 := by
            rw [Int.tdiv_eq_ediv (by omega) (by omega), hm]
          have e0 : NewDuration d =
              { Max := false, Years := 0, Months := d / 2592000000000000, Days := 0 } := by
            rw [NewDuration, if_neg h1, if_neg h2, if_pos h3, e]
          rw [e0]
          refine ⟨rfl, Or.inr (Or.inl ⟨rfl, rfl, ?_, ?_⟩)⟩ <;> simp only <;> omega
        · have e : d.tdiv year = d / 31536000000000000 := by
            rw [Int.tdiv_eq_ediv (by omega) (by omega), hy]
          have e0 : NewDuration d =
              { Max := false, Years := d / 31536000000000000, Months := 0, Days := 0 } := by
            rw [NewDuration, if_neg h1, if_neg h2, if_neg h3, e]
          rw [e0]
          refine ⟨rfl, Or.inr (Or.inr ⟨rfl, rfl, ?_, ?_⟩)⟩ <;> simp only <;> omega
  obtain ⟨k0, k⟩ := key
  have shape : ((NewDuration d).Years = 0 ∧ (NewDuration d).Months = 0 ∧
        1 ≤ (NewDuration d).Days ∧ (NewDuration d).Days ≤ 29 ∧
        (NewDuration d).String = fmtD (NewDuration d).Days ++ "d") ∨
     ((NewDuration d).Years = 0 ∧ (NewDuration d).Days = 0 ∧
        1 ≤ (NewDuration d).Months ∧ (NewDuration d).Months ≤ 12 ∧
        (NewDuration d).String = fmtD (NewDuration d).Months ++ "m") ∨
     ((NewDuration d).Months = 0 ∧ (NewDuration d).Days = 0 ∧
        1 ≤ (NewDuration d).Years ∧ (NewDuration d).Years ≤ 292 ∧
        (NewDuration d).String = fmtD (NewDuration d).Years ++ "y") := by
    rcases k with ⟨a, b, c, e⟩ | ⟨a, b, c, e⟩ | ⟨a, b, c, e⟩
    · have hne : (NewDuration d).Days ≠ 0 := by omega
      exact Or.inl ⟨a, b, c, e, by simp [Duration.String, k0, a, b, hne]⟩
    · have hne : (NewDuration d).Months ≠ 0 := by omega
      exact Or.inr (Or.inl ⟨a, b, c, e, by simp [Duration.String, k0, a, hne]⟩)
    · have hne : (NewDuration d).Years ≠ 0 := by omega
      exact Or.inr (Or.inr ⟨a, b, c, e, by simp [Duration.String, k0, hne]⟩)
  refine ⟨k0, shape, ?_, ?_⟩
  · rcases shape with ⟨_, _, _, _, e⟩ | ⟨_, _, _, _, e⟩ | ⟨_, _, _, _, e⟩ <;> rw [e]
    · exact append_unit_ne_max _ 'd' (by decide)
    · exact append_unit_ne_max _ 'm' (by decide)
    · exact append_unit_ne_max _ 'y' (by decide)
  · rintro ⟨_, a, b, c⟩
    rcases k with ⟨_, _, e, _⟩ | ⟨_, _, e, _⟩ | ⟨_, _, e, _⟩ <;> omega

theorem NewDuration_shape_witness :
    isInt64 (400 * day) ∧ (NewDuration (400 * day)).Max = false ∧
    (NewDuration (400 * day)).String ≠ "max" :=
  ⟨by decide, (NewDuration_shape (400 * day) (by decide)).1,
    (NewDuration_shape (400 * day) (by decide)).2.2.1⟩

/-! ## The shared primitive -/

theorem callAndUnmarshal_status_ge {α : Type} (c : Client) (u : Unmarshal α)
    (url : GoString) (wrapped : α) (resp : Response) (body : GoString)
    (h : c.answers url resp body) (hs : resp.StatusCode ≥ 400) :
    c.callAndUnmarshal u url wrapped =
      (wrapped, some (Error.iex { Code := resp.StatusCode, Message := body })) := by
  obtain ⟨h1, h2, h3⟩ := h
  simp [Client.callAndUnmarshal, h1, h2, h3, hs]

theorem callAndUnmarshal_status_lt {α : Type} (c : Client) (u : Unmarshal α)
    (url : GoString) (wrapped : α) (resp : Response) (body : GoString)
    (h : c.answers url resp body) (hs : resp.StatusCode < 400) :
    c.callAndUnmarshal u url wrapped =
      ((u body wrapped).1, (u body wrapped).2.map Error.decode) := by
  obtain ⟨h1, h2, h3⟩ := h
  have hs2 : ¬ resp.StatusCode ≥ 400 := by omega
  simp only [Client.callAndUnmarshal, h1, h2, h3, hs2, if_false]
  rcases hu : u body wrapped with ⟨w, _ | e⟩ <;> simp

/-- C3: when the transport call succeeded (request built, response received,
body read), `callAndUnmarshal` returns an `*IexError` exactly when the status
code is at least 400; then, whatever the decoder, the error carries the status
code and the body unchanged and the target keeps its value; below 400 no
`IexError` comes out, whatever the body. -/
theorem callAndUnmarshal_iexError {α : Type} (c : Client) (u : Unmarshal α)
    (url : GoString) (wrapped : α) (resp : Response) (body : GoString)
    (h : c.answers url resp body) :
    ((∃ e, (c.callAndUnmarshal u url wrapped).2 = some (Error.iex e)) ↔
      resp.StatusCode ≥ 400) ∧
    (resp.StatusCode ≥ 400 → ∀ v : Unmarshal α,
      c.callAndUnmarshal v url wrapped =
        (wrapped, some (Error.iex { Code := resp.StatusCode, Message := body }))) ∧
    (resp.StatusCode < 400 → ∀ e,
      (c.callAndUnmarshal u url wrapped).2 ≠ some (Error.iex e)) := by
  have lt : resp.StatusCode < 400 → ∀ e,
      (c.callAndUnmarshal u url wrapped).2 ≠ some (Error.iex e) := by
    intro hs e
    rw [callAndUnmarshal_status_lt c u url wrapped resp body h hs]
    cases (u body wrapped).2 <;> simp
  refine ⟨⟨?_, ?_⟩, ?_, lt⟩
  · rintro ⟨e, he⟩
    by_contra hs
    exact lt (by omega) e he
  · intro hs
    exact ⟨_, by rw [callAndUnmarshal_status_ge c u url wrapped resp body h hs]⟩
  · intro hs v
    exact callAndUnmarshal_status_ge c v url wrapped resp body h hs

theorem callAndUnmarshal_iexError_witness :
    (New "k" Prod (mockTransport 500 "oops")).answers "u"
      { StatusCode := 500, Body := .ok "oops" } "oops" ∧
    (New "k" Prod (mockTransport 500 "oops")).callAndUnmarshal
      (emptyArrayOnly Nat) "u" [7] =
      ([7], some (Error.iex { Code := 500, Message := "oops" })) :=
  ⟨⟨rfl, rfl, rfl⟩,
    (callAndUnmarshal_iexError (New "k" Prod (mockTransport 500 "oops"))
      (emptyArrayOnly Nat) "u" [7] { StatusCode := 500, Body := .ok "oops" } "oops"
      ⟨rfl, rfl, rfl⟩).2.1 (by decide) (emptyArrayOnly Nat)⟩

/-! ## Endpoint operations: results -/

/-- C4, as stated, fails: on status 404 with body `not found`,
`IntradayPrices` for `AAPL` returns the API error together with a wrapper that
is neither `nil` nor the zero value: it carries the symbol. -/
theorem IntradayPrices_notFound_not_zero :
    (New "k" Prod (mockTransport 404 "not found")).IntradayPrices
        (emptyArrayOnly IntradayItem) "AAPL" =
      (some { Symbol := "AAPL", Data := [] },
        some (Error.iex { Code := 404, Message := "not found" })) ∧
    ((New "k" Prod (mockTransport 404 "not found")).IntradayPrices
        (emptyArrayOnly IntradayItem) "AAPL").1 ≠ none ∧
    ((New "k" Prod (mockTransport 404 "not found")).IntradayPrices
        (emptyArrayOnly IntradayItem) "AAPL").1 ≠ some {} := by
  refine ⟨by decide, by decide, by decide⟩

/-- C4, amended: when the transport answers 404 with body `not found`, every
endpoint operation returns the API error with code 404 and message
`not found`; with it `Quote` returns a zero-value quote, `News` and
`AdvancedDividends` return `nil`, and `IntradayPrices`, `HistoricalPrices`,
`Search` and `Dividends` return a wrapper that holds the subject and an empty
list. -/
theorem notFound_results (c : Client) (s : GoString) (d : Duration)
    (opts : List queryOption) (resp : Response) (hs : resp.StatusCode = 404) :
    (∀ u, c.answers (c.quoteURL s) resp "not found" →
      c.Quote u s =
        (some {}, some (Error.iex { Code := 404, Message := "not found" }))) ∧
    (∀ u, c.answers (c.intradayPricesURL s) resp "not found" →
      c.IntradayPrices u s =
        (some { Symbol := s, Data := [] },
          some (Error.iex { Code := 404, Message := "not found" }))) ∧
    (∀ u, c.answers (c.historicalPricesURL s d) resp "not found" →
      c.HistoricalPrices u s d =
        (some { Symbol := s, Data := [] },
          some (Error.iex { Code := 404, Message := "not found" }))) ∧
    (∀ u, c.answers (c.searchURL s) resp "not found" →
      c.Search u s =
        (some { Search := s, Results := [] },
          some (Error.iex { Code := 404, Message := "not found" }))) ∧
    (∀ u, c.answers (c.dividendsURL s d) resp "not found" →
      c.Dividends u s d =
        (some { Symbol := s, Dividends := [] },
          some (Error.iex { Code := 404, Message := "not found" }))) ∧
    (∀ u, c.answers (c.timeSeriesURL "news" s "" opts) resp "not found" →
      c.News u s opts =
        (none, some (Error.iex { Code := 404, Message := "not found" }))) ∧
    (∀ u, c.answers (c.timeSeriesURL "advanced_dividends" s "" opts) resp
        "not found" →
      c.AdvancedDividends u s opts =
        (none, some (Error.iex { Code := 404, Message := "not found" }))) := by
  have hge : resp.StatusCode ≥ 400 := by omega
  refine ⟨?_, ?_, ?_, ?_, ?_, ?_, ?_⟩ <;> intro u h
  · simp [Client.Quote, callAndUnmarshal_status_ge c u _ _ resp _ h hge, hs]
  · simp [Client.IntradayPrices, callAndUnmarshal_status_ge c u _ _ resp _ h hge, hs]
  · simp [Client.HistoricalPrices, callAndUnmarshal_status_ge c u _ _ resp _ h hge, hs]
  · simp [Client.Search, callAndUnmarshal_status_ge c u _ _ resp _ h hge, hs]
  · simp [Client.Dividends, callAndUnmarshal_status_ge c u _ _ resp _ h hge, hs]
  · simp [Client.News, Client.TimeSeries,
      callAndUnmarshal_status_ge c u _ _ resp _ h hge, hs]
  · simp [Client.AdvancedDividends, Client.TimeSeries,
      callAndUnmarshal_status_ge c u _ _ resp _ h hge, hs]

theorem notFound_results_witness :
    (New "k" Prod (mockTransport 404 "not found")).Search
        (emptyArrayOnly SearchResultItem) "apple" =
      (some { Search := "apple", Results := [] },
        some (Error.iex { Code := 404, Message := "not found" })) ∧
    (New "k" Prod (mockTransport 404 "not found")).News
        (emptyArrayOnly NewsResultItem) "AAPL" ["limit=5"] =
      (none, some (Error.iex { Code := 404, Message := "not found" })) :=
  ⟨(notFound_results (New "k" Prod (mockTransport 404 "not found")) "apple" {}
      [] { StatusCode := 404, Body := .ok "not found" } rfl).2.2.2.1
      (emptyArrayOnly SearchResultItem) ⟨rfl, rfl, rfl⟩,
   (notFound_results (New "k" Prod (mockTransport 404 "not found")) "AAPL" {}
      ["limit=5"] { StatusCode := 404, Body := .ok "not found" } rfl).2.2.2.2.2.1
      (emptyArrayOnly NewsResultItem) ⟨rfl, rfl, rfl⟩⟩

/-- C5: on a successful call (status below 400, body decoded to the list `L`
without error) every list-bearing operation returns a wrapper whose subject
field is the subject `s` as given and whose list field is `L`, also when `L`
is empty. -/
theorem list_results (c : Client) (s : GoString) (d : Duration)
    (opts : List queryOption) (resp : Response) (body : GoString)
    (hs : resp.StatusCode < 400) :
    (∀ u L, c.answers (c.intradayPricesURL s) resp body → u body [] = (L, none) →
      c.IntradayPrices u s = (some { Symbol := s, Data := L }, none)) ∧
    (∀ u L, c.answers (c.historicalPricesURL s d) resp body →
      u body [] = (L, none) →
      c.HistoricalPrices u s d = (some { Symbol := s, Data := L }, none)) ∧
    (∀ u L, c.answers (c.searchURL s) resp body → u body [] = (L, none) →
      c.Search u s = (some { Search := s, Results := L }, none)) ∧
    (∀ u L, c.answers (c.dividendsURL s d) resp body → u body [] = (L, none) →
      c.Dividends u s d = (some { Symbol := s, Dividends := L }, none)) ∧
    (∀ u L, c.answers (c.timeSeriesURL "news" s "" opts) resp body →
      u body [] = (L, none) →
      c.News u s opts = (some { Symbol := s, News := L }, none)) ∧
    (∀ u L, c.answers (c.timeSeriesURL "advanced_dividends" s "" opts) resp body →
      u body [] = (L, none) →
      c.AdvancedDividends u s opts = (some { Symbol := s, Dividends := L }, none)) := by
  refine ⟨?_, ?_, ?_, ?_, ?_, ?_⟩ <;> intro u L h hu
  · simp [Client.IntradayPrices, callAndUnmarshal_status_lt c u _ _ resp _ h hs, hu]
  · simp [Client.HistoricalPrices, callAndUnmarshal_status_lt c u _ _ resp _ h hs, hu]
  · simp [Client.Search, callAndUnmarshal_status_lt c u _ _ resp _ h hs, hu]
  · simp [Client.Dividends, callAndUnmarshal_status_lt c u _ _ resp _ h hs, hu]
  · simp [Client.News, Client.TimeSeries,
      callAndUnmarshal_status_lt c u _ _ resp _ h hs, hu]
  · simp [Client.AdvancedDividends, Client.TimeSeries,
      callAndUnmarshal_status_lt c u _ _ resp _ h hs, hu]

theorem list_results_witness :
    (New "k" Prod (mockTransport 200 "[]")).IntradayPrices
        (emptyArrayOnly IntradayItem) "AAPL" =
      (some { Symbol := "AAPL", Data := [] }, none) ∧
    (New "k" Prod (mockTransport 200 "[]")).AdvancedDividends
        (emptyArrayOnly DividendResultItem) "AAPL" [] =
      (some { Symbol := "AAPL", Dividends := [] }, none) :=
  ⟨(list_results (New "k" Prod (mockTransport 200 "[]")) "AAPL" {} []
      { StatusCode := 200, Body := .ok "[]" } "[]" (by decide)).1
      (emptyArrayOnly IntradayItem) [] ⟨rfl, rfl, rfl⟩ rfl,
   (list_results (New "k" Prod (mockTransport 200 "[]")) "AAPL" {} []
      { StatusCode := 200, Body := .ok "[]" } "[]" (by decide)).2.2.2.2.2
      (emptyArrayOnly DividendResultItem) [] ⟨rfl, rfl, rfl⟩ rfl⟩

/-! ## Query options -/

theorem intercalate_go_append (s a b : String) (l : List String) :
    String.intercalate.go (a ++ b) s l = a ++ String.intercalate.go b s l := by
  induction l generalizing b with
  | nil => simp [String.intercalate.go]
  | cons x xs ih =>
    simp only [String.intercalate.go]
    rw [String.append_assoc, String.append_assoc, ih, String.append_assoc]

theorem intercalate_cons_cons (s p q : String) (l : List String) :
    s.intercalate (p :: q :: l) = p ++ s ++ s.intercalate (q :: l) := by
  simp only [String.intercalate, String.intercalate.go]
  rw [String.append_assoc, intercalate_go_append, String.append_assoc,
    intercalate_go_append]

theorem subattributeLoop_eq (len : Nat) (rest : List GoString) :
    ∀ (i : Nat) (kvList : GoString), i + rest.length = len →
      subattributeLoop len i rest kvList = kvList ++ ",".intercalate rest := by
  induction rest with
  | nil =>
    intro i kvList _
    simp [subattributeLoop, String.intercalate]
  | cons p rest ih =>
    intro i kvList hlen
    simp only [List.length_cons] at hlen
    cases rest with
    | nil =>
      have hi : i = len - 1 := by simp at hlen; omega
      simp [subattributeLoop, hi, String.intercalate, String.intercalate.go]
    | cons q rest =>
      have hi : ¬ i = len - 1 := by simp at hlen; omega
      rw [subattributeLoop, if_neg hi, ih (i + 1) _ (by simp at hlen ⊢; omega),
        intercalate_cons_cons]
      simp [String.append_assoc]

/-- C6: whatever the order `o` in which `range` yields the entries of the map
`m` (a permutation of them), `Subattribute` is `subattribute=` followed by the
strings `k|v` of the entries, each once, in that order, joined by single
commas with none leading or trailing; for the map with the entries `a: b` and
`c: d` the result is `subattribute=a|b,c|d` or `subattribute=c|d,a|b`. -/
theorem Subattribute_joined (m o : List (GoString × GoString)) (ho : o.Perm m) :
    ((o.map (fun kv => kv.1 ++ "|" ++ kv.2)).Perm
        (m.map (fun kv => kv.1 ++ "|" ++ kv.2)) ∧
      (o.map (fun kv => kv.1 ++ "|" ++ kv.2)).length = m.length ∧
      Subattribute o =
        "subattribute=" ++ ",".intercalate (o.map (fun kv => kv.1 ++ "|" ++ kv.2))) ∧
    (m = [("a", "b"), ("c", "d")] →
      Subattribute o = "subattribute=a|b,c|d" ∨
      Subattribute o = "subattribute=c|d,a|b") := by
  refine ⟨⟨ho.map _, ?_, ?_⟩, ?_⟩
  · rw [List.length_map, ho.length_eq]
  · simp only [Subattribute]
    rw [subattributeLoop_eq _ _ 0 "" (by simp)]
    simp
  · intro hm
    subst hm
    obtain ⟨p, q, rfl⟩ := List.length_eq_two.mp ho.length_eq
    have hp : p ∈ [(("a" : GoString), ("b" : GoString)), ("c", "d")] :=
      ho.mem_iff.mp (by simp)
    have hq : q ∈ [(("a" : GoString), ("b" : GoString)), ("c", "d")] :=
      ho.mem_iff.mp (by simp)
    have ha : (("a" : GoString), ("b" : GoString)) ∈ [p, q] := ho.mem_iff.mpr (by simp)
    have hc : (("c" : GoString), ("d" : GoString)) ∈ [p, q] := ho.mem_iff.mpr (by simp)
    simp only [List.mem_cons, List.mem_singleton, List.not_mem_nil, or_false] at hp hq ha hc
    rcases hp with rfl | rfl <;> rcases hq with rfl | rfl
    · exact absurd hc (by decide)
    · exact Or.inl (by decide)
    · exact Or.inr (by decide)
    · exact absurd ha (by decide)

theorem Subattribute_joined_witness :
    Subattribute [("c", "d"), ("a", "b")] = "subattribute=a|b,c|d" ∨
    Subattribute [("c", "d"), ("a", "b")] = "subattribute=c|d,a|b" :=
  (Subattribute_joined [("a", "b"), ("c", "d")] [("c", "d"), ("a", "b")]
    (List.Perm.swap _ _ _)).2 rfl

/-! ## `path.Clean` on proper paths -/

theorem dropWhile_length_le (f : Char → Bool) (l : List Char) :
    (l.dropWhile f).length ≤ l.length := by
  induction l with
  | nil => simp
  | cons a l ih =>
    simp only [List.dropWhile]
    split
    · simp only [List.length_cons]; omega
    · simp

/-- The loop advances at every iteration: any fuel that covers the input gives
the same result. -/
theorem cleanLoop_fuel (rooted : Bool) :
    ∀ (f g : Nat) (p out : List Char) (dd : Nat), p.length ≤ f → p.length ≤ g →
      cleanLoop rooted f p out dd = cleanLoop rooted g p out dd := by
  intro f
  induction f with
  | zero =>
    intro g p out dd hf _
    have hp : p = [] := List.length_eq_zero.mp (by omega)
    subst hp
    cases g <;> simp [cleanLoop]
  | succ f ih =>
    intro g p out dd hf hg
    cases p with
    | nil => cases g <;> simp [cleanLoop]
    | cons c rest =>
      cases g with
      | zero => simp at hg
      | succ g =>
        simp only [List.length_cons] at hf hg
        have ht : rest.tail.length ≤ rest.length := by simp
        have hdw := dropWhile_length_le (fun b => decide (b ≠ '/')) (c :: rest)
        simp only [List.length_cons] at hdw
        have hc : ((c :: rest).dropWhile (fun b => decide (b ≠ '/'))).length ≤
            rest.length ∨ c = '/' := by
          by_cases hc : c = '/'
          · exact Or.inr hc
          · left
            have : (c :: rest).dropWhile (fun b => decide (b ≠ '/')) =
                rest.dropWhile (fun b => decide (b ≠ '/')) := by
              simp [List.dropWhile, hc]
            rw [this]
            have := dropWhile_length_le (fun b => decide (b ≠ '/')) rest
            omega
        simp only [cleanLoop]
        split
        · exact ih g _ _ _ (by omega) (by omega)
        · rename_i hne
          have hd : ((c :: rest).dropWhile (fun b => decide (b ≠ '/'))).length ≤
              rest.length := by
            rcases hc with h | h
            · exact h
            · exact absurd h hne
          split
          · exact ih g _ _ _ (by omega) (by omega)
          · split
            · split
              · exact ih g _ _ _ (by omega) (by omega)
              · split
                · exact ih g _ _ _ (by omega) (by omega)
                · exact ih g _ _ _ (by omega) (by omega)
            · exact ih g _ _ _ (by omega) (by omega)

theorem cleanRun_nil (rooted : Bool) (out : List Char) (dd : Nat) :
    cleanRun rooted [] out dd = out := by
  simp [cleanRun, cleanLoop]

theorem cleanRun_slash (rooted : Bool) (p out : List Char) (dd : Nat) :
    cleanRun rooted ('/' :: p) out dd = cleanRun rooted p out dd := by
  simp [cleanRun, cleanLoop]

theorem rest_takeWhile (rest : List Char)
    (hrest : rest = [] ∨ rest.head? = some '/') :
    rest.takeWhile (fun b => decide (b ≠ '/')) = [] ∧
    rest.dropWhile (fun b => decide (b ≠ '/')) = rest := by
  cases rest with
  | nil => simp
  | cons a r =>
    rcases hrest with h | h
    · simp at h
    · simp only [List.head?_cons, Option.some.injEq] at h
      subst h
      exact ⟨by rw [List.takeWhile_cons]; rfl, by rw [List.dropWhile_cons]; rfl⟩

theorem takeWhile_elem (s rest : List Char) (hs : '/' ∉ s)
    (hrest : rest = [] ∨ rest.head? = some '/') :
    (s ++ rest).takeWhile (fun b => decide (b ≠ '/')) = s := by
  have h : ∀ a ∈ s, (fun b => decide (b ≠ '/')) a = true := by
    intro a ha
    exact decide_eq_true (fun e => hs (e ▸ ha))
  rw [List.takeWhile_append_of_pos h, (rest_takeWhile rest hrest).1, List.append_nil]

theorem dropWhile_elem (s rest : List Char) (hs : '/' ∉ s)
    (hrest : rest = [] ∨ rest.head? = some '/') :
    (s ++ rest).dropWhile (fun b => decide (b ≠ '/')) = rest := by
  have h : ∀ a ∈ s, (fun b => decide (b ≠ '/')) a = true := by
    intro a ha
    exact decide_eq_true (fun e => hs (e ▸ ha))
  rw [List.dropWhile_append_of_pos h, (rest_takeWhile rest hrest).2]

/-- One iteration on a proper element of an unrooted path copies it, after a
slash when the buffer is not empty. -/
theorem cleanRun_elem (s rest out : List Char) (dd : Nat) (hs : isElem s)
    (hrest : rest = [] ∨ rest.head? = some '/') :
    cleanRun false (s ++ rest) out dd =
      cleanRun false rest (s.reverse ++ (if out.length ≠ 0 then '/' :: out else out)) dd := by
  obtain ⟨hne, hslash, hdot, hdotdot⟩ := hs
  have htake := takeWhile_elem s rest hslash hrest
  have hdrop := dropWhile_elem s rest hslash hrest
  cases s with
  | nil => exact absurd rfl hne
  | cons c t =>
    simp only [List.mem_cons, not_or] at hslash
    have h1 : c ≠ '/' := fun h => hslash.1 h.symm
    have h2 : ¬ (c = '.' ∧ (t ++ rest = [] ∨ (t ++ rest).head? = some '/')) := by
      rintro ⟨hc, h⟩
      cases t with
      | nil => exact hdot (by rw [hc])
      | cons c2 t2 =>
        simp only [List.mem_cons, not_or] at hslash
        rcases h with h | h
        · simp at h
        · simp only [List.cons_append, List.head?_cons, Option.some.injEq] at h
          exact hslash.2.1 h.symm
    have h3 : ¬ (c = '.' ∧ (t ++ rest).head? = some '.' ∧
        ((t ++ rest).tail = [] ∨ (t ++ rest).tail.head? = some '/')) := by
      rintro ⟨hc, hh, h⟩
      cases t with
      | nil => exact hdot (by rw [hc])
      | cons c2 t2 =>
        simp only [List.cons_append, List.head?_cons, Option.some.injEq] at hh
        simp only [List.cons_append, List.tail_cons] at h
        cases t2 with
        | nil => exact hdotdot (by rw [hc, hh])
        | cons c3 t3 =>
          simp only [List.mem_cons, not_or] at hslash
          rcases h with h | h
          · simp at h
          · simp only [List.cons_append, List.head?_cons, Option.some.injEq] at h
            exact hslash.2.2.1 h.symm
    have hlen : rest.length ≤ (t ++ rest).length := by simp
    rw [List.cons_append] at htake hdrop ⊢
    generalize t ++ rest = r at h2 h3 htake hdrop hlen ⊢
    simp only [cleanRun, List.length_cons, cleanLoop, if_neg h1, if_neg h2, if_neg h3,
      htake, hdrop]
    simp only [true_and, false_and, false_or, ne_eq, Bool.false_eq_true]
    exact cleanLoop_fuel false _ _ _ _ _ hlen (le_refl _)

theorem isElem_head_ne (s : List Char) (hs : isElem s) : s.head? ≠ some '/' := by
  obtain ⟨hne, hslash, _, _⟩ := hs
  cases s with
  | nil => simp
  | cons c t =>
    simp only [List.mem_cons, not_or] at hslash
    simp only [List.head?_cons, ne_eq, Option.some.injEq]
    exact fun h => hslash.1 h.symm

theorem isPath_ne_nil (p : List Char) (hp : isPath p) : p ≠ [] := by
  rcases hp with ⟨_, hs⟩ | ⟨s, q, hs, _⟩
  · exact hs.1
  · simp

theorem isPath_head_ne (p : List Char) (hp : isPath p) : p.head? ≠ some '/' := by
  rcases hp with ⟨_, hs⟩ | ⟨s, q, hs, _⟩
  · exact isElem_head_ne _ hs
  · have h := isElem_head_ne s hs
    have hne := hs.1
    cases s with
    | nil => exact absurd rfl hne
    | cons c t => simpa using h

/-- The loop copies a proper path unchanged, after a slash when the buffer is
not empty. -/
theorem cleanRun_path (p : List Char) (hp : isPath p) :
    ∀ (rest out : List Char) (dd : Nat), (rest = [] ∨ rest.head? = some '/') →
      cleanRun false (p ++ rest) out dd =
        cleanRun false rest
          (p.reverse ++ (if out.length ≠ 0 then '/' :: out else out)) dd := by
  induction hp with
  | single s hs =>
    intro rest out dd hrest
    exact cleanRun_elem s rest out dd hs hrest
  | cons s q hs _ ih =>
    intro rest out dd hrest
    rw [List.append_assoc, cleanRun_elem s _ out dd hs (Or.inr (by simp)),
      List.cons_append, cleanRun_slash, ih rest _ dd hrest]
    have hne : (s.reverse ++ (if out.length ≠ 0 then '/' :: out else out)).length ≠ 0 := by
      have := hs.1
      cases s with
      | nil => exact absurd rfl this
      | cons c t => simp
    rw [if_pos hne]
    simp

/-- A proper path at the end of the input: the loop stops after copying it. -/
theorem cleanRun_path_end (p : List Char) (hp : isPath p) (out : List Char) (dd : Nat) :
    cleanRun false p out dd =
      p.reverse ++ (if out.length ≠ 0 then '/' :: out else out) := by
  have h := cleanRun_path p hp [] out dd (Or.inl rfl)
  rw [List.append_nil] at h
  rw [h, cleanRun_nil]

theorem isPath_append (p q : List Char) (hp : isPath p) (hq : isPath q) :
    isPath (p ++ '/' :: q) := by
  induction hp with
  | single s hs => exact isPath.cons s q hs hq
  | cons s r hs _ ih =>
    rw [List.append_assoc, List.cons_append]
    exact isPath.cons s _ hs ih

theorem Clean_unrooted (p : GoString) (hne : p.data ≠ [])
    (hhead : p.data.head? ≠ some '/') :
    Clean p =
      if (cleanRun false p.data [] 0).length = 0 then "."
      else String.mk (cleanRun false p.data [] 0).reverse := by
  have h1 : p ≠ "" := by
    intro h
    exact hne (by rw [h])
  simp only [Clean, if_neg h1, cleanRun]
  have h2 : ¬ (decide (p.data.head? = some '/') = true) := by simpa using hhead
  simp only [if_neg h2]

/-- The function `path.Clean` returns a proper relative path as it is. -/
theorem Clean_isPath (p : GoString) (hp : isPath p.data) : Clean p = p := by
  rw [Clean_unrooted p (isPath_ne_nil _ hp) (isPath_head_ne _ hp)]
  have h := cleanRun_path p.data hp [] [] 0 (Or.inl rfl)
  have hne := isPath_ne_nil _ hp
  simp only [List.append_nil, List.length_nil, ne_eq, not_true_eq_false, if_false] at h
  rw [h, cleanRun_nil,
    if_neg (by rw [List.length_reverse]; exact fun e => hne (List.length_eq_zero.mp e)),
    List.reverse_reverse]

/-! ## Decimal digits are path-safe -/

theorem digitChar_ne_slash (n : Nat) (h : n < 10) : Nat.digitChar n ≠ '/' := by
  interval_cases n <;> decide

theorem toDigitsCore_no_slash :
    ∀ (fuel n : Nat) (ds : List Char), '/' ∉ ds → '/' ∉ Nat.toDigitsCore 10 fuel n ds := by
  intro fuel
  induction fuel with
  | zero =>
    intro n ds h
    simpa [Nat.toDigitsCore] using h
  | succ fuel ih =>
    intro n ds h
    have hd : '/' ∉ Nat.digitChar (n % 10) :: ds := by
      simp only [List.mem_cons, not_or]
      exact ⟨fun e => digitChar_ne_slash (n % 10) (Nat.mod_lt _ (by decide)) e.symm, h⟩
    simp only [Nat.toDigitsCore]
    split
    · exact hd
    · exact ih _ _ hd

theorem fmtD_no_slash (n : Int) : '/' ∉ (fmtD n).data := by
  have h : '/' ∉ (Nat.repr n.natAbs).data := by
    simp only [Nat.repr, Nat.toDigits, List.asString]
    exact toDigitsCore_no_slash _ _ [] (by simp)
  unfold fmtD
  split
  · simp only [String.data_append, List.mem_append, not_or]
    exact ⟨by decide, h⟩
  · exact h

theorem isElem_append_unit (s : List Char) (u : Char) (hs : '/' ∉ s)
    (hu1 : u ≠ '/') (hu2 : u ≠ '.') : isElem (s ++ [u]) := by
  refine ⟨by simp, ?_, ?_, ?_⟩
  · simp only [List.mem_append, List.mem_singleton, not_or]
    exact ⟨hs, fun e => hu1 e.symm⟩
  · intro h
    have h2 := congrArg List.getLast? h
    simp at h2
    exact hu2 h2
  · intro h
    have h2 := congrArg List.getLast? h
    simp at h2
    exact hu2 h2

/-- The token of a duration is always a proper path element. -/
theorem Duration.String_isElem (d : Duration) : isElem d.String.data := by
  unfold Duration.String
  split
  · decide
  · split
    · exact isElem_append_unit _ 'y' (fmtD_no_slash _) (by decide) (by decide)
    · split
      · exact isElem_append_unit _ 'm' (fmtD_no_slash _) (by decide) (by decide)
      · split
        · exact isElem_append_unit _ 'd' (fmtD_no_slash _) (by decide) (by decide)
        · decide

/-! ## Endpoint operations: request URLs -/

theorem Join_two (a b : GoString) (ha : a ≠ "") :
    Join [a, b] = Clean (a ++ "/" ++ b) := by
  have hlen : 0 < a.length := by
    rcases Nat.eq_zero_or_pos a.length with h | h
    · exact absurd (String.ext (List.length_eq_zero.mp h)) ha
    · exact h
  have hsum : ¬ (([a, b].map String.length).sum = 0) := by
    simp only [List.map_cons, List.map_nil, List.sum_cons, List.sum_nil]
    omega
  simp only [Join, if_neg hsum, List.foldl_cons, List.foldl_nil]
  have h0 : ¬ (0 < "".length) := by decide
  simp [h0, ha, hlen]

/-- C9: the URL `HistoricalPrices` requests is the base URL, `stock/`, the
symbol, `/chart`, the token `Duration.String` gives for the duration, then
`?token=` and the API key; the operation hands exactly that URL to
`callAndUnmarshal`. -/
theorem historicalPricesURL_eq (apiKey : GoString) (env : environment)
    (t : HTTPClient) (u : Unmarshal (List IntradayItem)) (symbol : GoString)
    (d : Duration) :
    (New apiKey env t).historicalPricesURL symbol d =
      (New apiKey env t).baseURL ++ "stock/" ++ symbol ++ "/chart" ++ d.String
        ++ "?token=" ++ apiKey ∧
    (New apiKey env t).baseURL = "https://" ++ env ++ ".iexapis.com/stable/" ∧
    (New apiKey env t).HistoricalPrices u symbol d =
      (some { Symbol := symbol,
              Data := ((New apiKey env t).callAndUnmarshal u
                ((New apiKey env t).baseURL ++ "stock/" ++ symbol ++ "/chart"
                  ++ d.String ++ "?token=" ++ apiKey) []).1 },
        ((New apiKey env t).callAndUnmarshal u
          ((New apiKey env t).baseURL ++ "stock/" ++ symbol ++ "/chart"
            ++ d.String ++ "?token=" ++ apiKey) []).2) := by
  have e : (New apiKey env t).historicalPricesURL symbol d =
      (New apiKey env t).baseURL ++ "stock/" ++ symbol ++ "/chart" ++ d.String
        ++ "?token=" ++ apiKey := by
    simp only [Client.historicalPricesURL, New, String.append_assoc]
  refine ⟨e, rfl, ?_⟩
  rw [← e]
  rfl

/-- C8, as stated, fails: for the empty symbol `path.Join` drops the empty
element, and the URL is not the claimed one with the symbol between two
slashes. -/
theorem dividendsURL_empty_symbol :
    (New "k" Prod (mockTransport 200 "[]")).dividendsURL "" { Days := 5 } =
      "https://cloud.iexapis.com/stable/stock/dividends/5d?token=k" ∧
    (New "k" Prod (mockTransport 200 "[]")).dividendsURL "" { Days := 5 } ≠
      (New "k" Prod (mockTransport 200 "[]")).baseURL ++ "stock/" ++ "" ++
        "/dividends/" ++ Duration.String { Days := 5 } ++ "?token=" ++ "k" := by
  refine ⟨by decide, by decide⟩

/-- C8, amended: for a symbol that is a proper relative path (non-empty
elements, none of them `.` or `..`, separated by single slashes; a plain
ticker is one) the URL `Dividends` requests is the base URL, `stock/`, the
symbol unchanged, `/dividends/`, the duration token as the last path segment,
then `?token=` and the API key. -/
theorem dividendsURL_eq (apiKey : GoString) (env : environment) (t : HTTPClient)
    (u : Unmarshal (List DividendResultItem)) (symbol : GoString) (d : Duration)
    (hsym : isPath symbol.data) :
    (New apiKey env t).dividendsURL symbol d =
      (New apiKey env t).baseURL ++ "stock/" ++ symbol ++ "/dividends/" ++ d.String
        ++ "?token=" ++ apiKey ∧
    (New apiKey env t).baseURL = "https://" ++ env ++ ".iexapis.com/stable/" ∧
    (New apiKey env t).Dividends u symbol d =
      (some { Symbol := symbol,
              Dividends := ((New apiKey env t).callAndUnmarshal u
                ((New apiKey env t).baseURL ++ "stock/" ++ symbol ++ "/dividends/"
                  ++ d.String ++ "?token=" ++ apiKey) []).1 },
        ((New apiKey env t).callAndUnmarshal u
          ((New apiKey env t).baseURL ++ "stock/" ++ symbol ++ "/dividends/"
            ++ d.String ++ "?token=" ++ apiKey) []).2) := by
  have hne : "stock/" ++ symbol ++ "/dividends" ≠ "" := by
    intro h
    have h2 := congrArg String.length h
    simp only [String.length_append] at h2
    have h3 : "stock/".length = 6 := by decide
    have h4 : "".length = 0 := by decide
    omega
  have hdata : ("stock/" ++ symbol ++ "/dividends" ++ "/" ++ d.String).data =
      ['s', 't', 'o', 'c', 'k'] ++ '/' :: (symbol.data ++ '/' ::
        (['d', 'i', 'v', 'i', 'd', 'e', 'n', 'd', 's'] ++ '/' :: d.String.data)) := by
    simp [String.data_append]
  have hpath : isPath ("stock/" ++ symbol ++ "/dividends" ++ "/" ++ d.String).data := by
    rw [hdata]
    exact isPath.cons _ _ (by decide)
      (isPath_append _ _ hsym
        (isPath.cons _ _ (by decide) (isPath.single _ (Duration.String_isElem d))))
  have e : (New apiKey env t).dividendsURL symbol d =
      (New apiKey env t).baseURL ++ "stock/" ++ symbol ++ "/dividends/" ++ d.String
        ++ "?token=" ++ apiKey := by
    simp only [Client.dividendsURL]
    rw [Join_two _ _ hne, Clean_isPath _ hpath]
    apply String.ext
    simp [New, String.data_append]
  refine ⟨e, rfl, ?_⟩
  rw [← e]
  rfl

theorem dividendsURL_eq_witness :
    isPath ("AAPL" : GoString).data ∧
    (New "k" Sandbox (mockTransport 200 "[]")).dividendsURL "AAPL" { Months := 3 } =
      (New "k" Sandbox (mockTransport 200 "[]")).baseURL ++ "stock/" ++ "AAPL" ++
        "/dividends/" ++ Duration.String { Months := 3 } ++ "?token=" ++ "k" :=
  ⟨isPath.single _ (by decide),
    (dividendsURL_eq "k" Sandbox (mockTransport 200 "[]")
      (emptyArrayOnly DividendResultItem) "AAPL" { Months := 3 }
      (isPath.single _ (by decide))).1⟩

theorem Join_four (a b c d : GoString) (ha : a ≠ "") :
    Join [a, b, c, d] = Clean (a ++ "/" ++ b ++ "/" ++ c ++ "/" ++ d) := by
  have hlen : 0 < a.length := by
    rcases Nat.eq_zero_or_pos a.length with h | h
    · exact absurd (String.ext (List.length_eq_zero.mp h)) ha
    · exact h
  have hsum : ¬ (([a, b, c, d].map String.length).sum = 0) := by
    simp only [List.map_cons, List.map_nil, List.sum_cons, List.sum_nil]
    omega
  simp only [Join, if_neg hsum, List.foldl_cons, List.foldl_nil]
  have h0 : ¬ (0 < "".length) := by decide
  have h1 : 0 < (a ++ "/" ++ b).length := by
    simp only [String.length_append]; omega
  have h2 : 0 < (a ++ "/" ++ b ++ "/" ++ c).length := by
    simp only [String.length_append]; omega
  simp [h0, ha, hlen, h1, h2]

theorem cleanRun_timeSeries (a b c : List Char) (ha : isPath a) (hb : isPath b)
    (hc : c = [] ∨ isPath c) :
    cleanRun false
        (['t', 'i', 'm', 'e', '-', 's', 'e', 'r', 'i', 'e', 's'] ++
          '/' :: '/' :: (a ++ '/' :: (b ++ '/' :: c))) [] 0 =
      ((['t', 'i', 'm', 'e', '-', 's', 'e', 'r', 'i', 'e', 's'] ++ '/' :: (a ++ '/' :: b))
        ++ (if c = [] then [] else '/' :: c)).reverse := by
  have hane := isPath_ne_nil a ha
  have hbne := isPath_ne_nil b hb
  rw [cleanRun_elem _ ('/' :: '/' :: (a ++ '/' :: (b ++ '/' :: c))) _ _ (by decide)
      (Or.inr rfl), cleanRun_slash, cleanRun_slash,
    cleanRun_path a ha ('/' :: (b ++ '/' :: c)) _ _ (Or.inr rfl), cleanRun_slash,
    cleanRun_path b hb ('/' :: c) _ _ (Or.inr rfl), cleanRun_slash]
  rcases hc with rfl | hc
  · rw [cleanRun_nil]
    simp [hane]
  · have hcne := isPath_ne_nil c hc
    rw [cleanRun_path_end c hc]
    simp [hane, hbne, hcne]

theorem foldl_append_init (l : List String) :
    ∀ init : String, l.foldl (fun r x => r ++ x) init = init ++ String.join l := by
  induction l with
  | nil => intro init; simp [String.join]
  | cons x l ih =>
    intro init
    have hj : String.join (x :: l) = x ++ String.join l := by
      show (x :: l).foldl (fun r s => r ++ s) "" = _
      rw [List.foldl_cons, ih ("" ++ x)]
      simp
    rw [List.foldl_cons, ih, hj, String.append_assoc]

theorem foldl_opts (opts : List queryOption) (init : GoString) :
    opts.foldl (fun acc o => acc ++ ("&" ++ o)) init =
      init ++ String.join (opts.map (fun o => "&" ++ o)) := by
  rw [← foldl_append_init, List.foldl_map]

/-- C7, as stated, fails: for the id `..` `path.Join` removes the element
before it, and the requested path is `k`, not `time-series/../k`. -/
theorem timeSeriesURL_dotdot_id :
    (New "t0" Prod (mockTransport 200 "[]")).timeSeriesURL ".." "k" "" ["limit=5"] =
      "https://cloud.iexapis.com/stable/k?token=t0&limit=5" ∧
    (New "t0" Prod (mockTransport 200 "[]")).timeSeriesURL ".." "k" "" ["limit=5"] ≠
      (New "t0" Prod (mockTransport 200 "[]")).baseURL ++ "time-series/" ++ ".." ++
        "/" ++ "k" ++ "?token=" ++ "t0" ++ "&" ++ "limit=5" := by
  refine ⟨by decide, by decide⟩

/-- C7, amended: for an id and a key that are proper relative paths (non-empty
elements, none of them `.` or `..`, separated by single slashes) and a subkey
that is empty or such a path, the URL `TimeSeries` requests is the base URL,
`time-series/`, the id, `/`, the key, then `/` and the subkey unless the subkey
is empty, then `?token=` and the API key, then `&` and the option for every
query option in the order supplied, repeated ones as often as supplied; the
operation hands exactly that URL to `callAndUnmarshal`. -/
theorem timeSeriesURL_eq {α : Type} (apiKey : GoString) (env : environment)
    (t : HTTPClient) (u : Unmarshal α) (wrapped : α) (id key subkey : GoString)
    (opts : List queryOption) (hid : isPath id.data) (hkey : isPath key.data)
    (hsub : subkey = "" ∨ isPath subkey.data) :
    (New apiKey env t).timeSeriesURL id key subkey opts =
      (New apiKey env t).baseURL ++ "time-series/" ++ id ++ "/" ++ key ++
        (if subkey = "" then "" else "/" ++ subkey) ++ "?token=" ++ apiKey ++
        String.join (opts.map (fun o => "&" ++ o)) ∧
    (New apiKey env t).baseURL = "https://" ++ env ++ ".iexapis.com/stable/" ∧
    (New apiKey env t).TimeSeries u id key subkey wrapped opts =
      (New apiKey env t).callAndUnmarshal u
        ((New apiKey env t).baseURL ++ "time-series/" ++ id ++ "/" ++ key ++
          (if subkey = "" then "" else "/" ++ subkey) ++ "?token=" ++ apiKey ++
          String.join (opts.map (fun o => "&" ++ o))) wrapped := by
  have hsub2 : subkey.data = [] ∨ isPath subkey.data := by
    rcases hsub with h | h
    · exact Or.inl (by rw [h])
    · exact Or.inr h
  have hdata : (timeSeries ++ "/" ++ id ++ "/" ++ key ++ "/" ++ subkey).data =
      ['t', 'i', 'm', 'e', '-', 's', 'e', 'r', 'i', 'e', 's'] ++
        '/' :: '/' :: (id.data ++ '/' :: (key.data ++ '/' :: subkey.data)) := by
    simp [timeSeries, String.data_append]
  have hclean : Clean (timeSeries ++ "/" ++ id ++ "/" ++ key ++ "/" ++ subkey) =
      "time-series/" ++ id ++ "/" ++ key ++ (if subkey = "" then "" else "/" ++ subkey) := by
    rw [Clean_unrooted _ (by rw [hdata]; simp) (by rw [hdata]; simp), hdata,
      cleanRun_timeSeries _ _ _ hid hkey hsub2]
    have hiff : subkey.data = [] ↔ subkey = "" :=
      ⟨fun h => String.ext h, fun h => by rw [h]⟩
    have hne := isPath_ne_nil _ hid
    rw [if_neg (by simp), List.reverse_reverse]
    apply String.ext
    by_cases hs : subkey = ""
    · simp [hs, String.data_append]
    · have hs2 : ¬ subkey.data = [] := fun h => hs (hiff.mp h)
      simp [hs, hs2, String.data_append]
  have e : (New apiKey env t).timeSeriesURL id key subkey opts =
      (New apiKey env t).baseURL ++ "time-series/" ++ id ++ "/" ++ key ++
        (if subkey = "" then "" else "/" ++ subkey) ++ "?token=" ++ apiKey ++
        String.join (opts.map (fun o => "&" ++ o)) := by
    simp only [Client.timeSeriesURL]
    rw [Join_four _ _ _ _ (by decide), hclean, foldl_opts]
    simp only [New, String.append_assoc]
  refine ⟨e, rfl, ?_⟩
  rw [← e]
  rfl

theorem timeSeriesURL_eq_witness :
    isPath ("news" : GoString).data ∧ isPath ("AAPL" : GoString).data ∧
    (New "t0" Prod (mockTransport 200 "[]")).timeSeriesURL "news" "AAPL" ""
        ["limit=5", "limit=5", "calendar=true"] =
      "https://cloud.iexapis.com/stable/time-series/news/AAPL?token=t0&limit=5&limit=5&calendar=true" :=
  ⟨isPath.single _ (by decide), isPath.single _ (by decide),
    ((timeSeriesURL_eq "t0" Prod (mockTransport 200 "[]") (emptyArrayOnly Nat) []
      "news" "AAPL" "" ["limit=5", "limit=5", "calendar=true"]
      (isPath.single _ (by decide)) (isPath.single _ (by decide)) (Or.inl rfl)).1).trans
      (by decide)⟩

end Iexcloud
